import Mathlib

/-!
Shallow embedding of the asynchronous task engine of the `verco` repository
(src/worker.rs and src/application.rs), together with theorems settling the
specification claims about it.

Conventions of the embedding:
* `std::task::Poll` becomes the inductive `Poll` below.
* A boxed `dyn Task` child is modelled by `ScriptTask`: it answers `pending`
  for a scripted number of polls and then answers `ready` with its scripted
  result.  Instrumentation fields (`polls`, `cancelled`) record how the task
  was driven; they never influence its answers.
* Fallible Rust code that can panic (`unwrap`, out-of-bounds indexing) is
  embedded as an `Option`-returning function, `none` marking the panic.
* The OS behaviour behind a `Command`/`Child` (spawn outcome, exit status,
  captured streams, UTF-8 validity of the captured bytes) is an explicit
  environment record supplied to the embedded functions.
-/

namespace Verco

/-- Mirrors `std::task::Poll`: a polled task either is finished with a value
or is still pending. -/
inductive Poll (T : Type) where
  | ready (value : T)
  | pending
deriving DecidableEq

/-- Abstract model of a boxed `dyn Task` child (trait `Task`,
src/worker.rs lines 10-15): it answers `Poll.pending` on its first `pending`
polls and then answers `Poll.ready result`.  `polls` counts invocations of
`poll` and `cancelled` records whether `cancel` was invoked; both are pure
instrumentation used to state which children get polled or cancelled. -/
structure ScriptTask (T : Type) where
  pending : Nat
  result : T
  polls : Nat
  cancelled : Bool
deriving DecidableEq

/-- One poll of a scripted child task: pending while the script says so,
then ready with the scripted result.  The poll counter always increments. -/
def ScriptTask.poll {T : Type} (s : ScriptTask T) : Poll T × ScriptTask T :=
  match s.pending with
  | 0 => (.ready s.result, { s with polls := s.polls + 1 })
  | Nat.succ n =>
    (.pending, { s with pending := n, polls := s.polls + 1 })

/-- Cancelling a scripted child task only records the cancellation request. -/
def ScriptTask.cancel {T : Type} (s : ScriptTask T) : ScriptTask T :=
  { s with cancelled := true }

/-- Result type of a version-control action, `ActionResult` of
src/application.rs line 117: success text or failure text. -/
abbrev ActionResult := Except String String

/-- Exit information and captured streams of a process as `wait_with_output`
would deliver them; the `stdout_utf8`/`stderr_utf8` fields are `none` when the
captured bytes are not valid UTF-8 (so that `String::from_utf8(..).unwrap()`
panics). -/
structure ProcOutput where
  success : Bool
  stdout_utf8 : Option String
  stderr_utf8 : Option String
deriving DecidableEq

/-- Environment model of a spawned `Child` process: what each of the
OS interactions used by src/application.rs would return for it.
`wait_with_output` and `wait` carry the error message of a failed wait,
`try_wait` tells (without blocking) whether the process has exited, and the
pipe fields give the outcome of `read_to_string` on the captured stream
(`none`: the handle is absent; `some (.error e)`: the read fails). -/
structure ChildModel where
  wait_with_output : Except String ProcOutput
  try_wait : Except String Bool
  wait_success : Except String Bool
  stdout_pipe : Option (Except String String)
  stderr_pipe : Option (Except String String)

/-- Environment model of a `Command`: what `spawn()` would return. -/
structure CommandModel where
  spawn : Except String ChildModel

/-- Embeds `get_process_output` (src/application.rs lines 15-42): wait for the
exit status; on success read stdout (empty text when the handle is absent), on
failure read stderr, turning every read error into a failure text. -/
def get_process_output (child : ChildModel) : ActionResult :=
  match child.wait_success with
  | .ok status =>
    if status then
      match child.stdout_pipe with
      | some (.ok output) => .ok output
      | some (.error e) => .error e
      | none => .ok ""
    else
      match child.stderr_pipe with
      | some (.ok err) => .error err
      | some (.error e) => .error e
      | none => .error ""
  | .error e => .error e

/-- Embeds `ActionTask` (src/application.rs lines 119-122): a process-backed
task is either a not-yet-spawned command or a running child process. -/
inductive ActionTask where
  | waiting (command : CommandModel)
  | running (child : ChildModel)

/-- Embeds `ActionTask::poll` (src/application.rs lines 127-162) as written.
In the `Waiting` arm the source calls the blocking `child.wait_with_output()`
and returns from inside both arms of the match on its result, so the
statements that follow it (closing stdin, the assignment
`*self = ActionTask::Running(child)` and `Poll::Pending`, lines 146-152) are
unreachable and are therefore absent here.  `none` marks a panic: the source
unwraps `String::from_utf8` on the captured bytes. -/
def ActionTask.poll : ActionTask → Option (Poll ActionResult × ActionTask)
  | .waiting command =>
    match command.spawn with
    | .ok child =>
      match child.wait_with_output with
      | .ok output =>
        if output.success then
          match output.stdout_utf8 with
          | some s => some (.ready (.ok s), .waiting command)
          | none => none
        else
          match output.stderr_utf8 with
          | some s => some (.ready (.error s), .waiting command)
          | none => none
      | .error e => some (.ready (.error e), .waiting command)
    | .error e => some (.ready (.error e), .waiting command)
  | .running child =>
    match child.try_wait with
    | .ok true => some (.ready (get_process_output child), .running child)
    | .ok false => some (.pending, .running child)
    | .error e => some (.ready (.error e), .running child)

/-- Embeds `ActionTask::cancel` (src/application.rs lines 164-171): on
`Waiting` nothing happens; on `Running` a best-effort kill is issued whose
result is discarded, leaving the embedded state unchanged. -/
def ActionTask.cancel : ActionTask → ActionTask
  | .waiting command => .waiting command
  | .running child => .running child

/-- Whether a call of `poll` in the given state spawns an OS process: the
`Waiting` arm of `ActionTask::poll` always calls `Command::spawn`, which
creates a process exactly when it returns `Ok`; the `Running` arm never
spawns. -/
def ActionTask.pollSpawns : ActionTask → Bool
  | .waiting command =>
    match command.spawn with
    | .ok _ => true
    | .error _ => false
  | .running _ => false

/-- Embeds `action_aggregator` (src/application.rs lines 174-214): the first
text gets a newline pushed and the second text appended; the combined value
is a success only in the both-success branch. -/
def action_aggregator (first second : ActionResult) : ActionResult :=
  match first, second with
  | .ok text, .ok b => .ok ((text.push '\n') ++ b)
  | .ok text, .error b => .error ((text.push '\n') ++ b)
  | .error text, .ok b => .error ((text.push '\n') ++ b)
  | .error text, .error b => .error ((text.push '\n') ++ b)

/-- Text carried by an action result, whichever way it is tagged. -/
def resultText : ActionResult → String
  | .ok s => s
  | .error s => s

/-- Success tag of an action result. -/
def resultIsOk : ActionResult → Bool
  | .ok _ => true
  | .error _ => false

/-- Mirrors `std::sync::mpsc::TryRecvError`. -/
inductive TryRecvError where
  | empty
  | disconnected
deriving DecidableEq

/-- Model of `Receiver::try_recv` on a channel whose queued messages are
`queue` and whose sender is alive iff `alive`: a queued message is returned
even after disconnection; an empty queue reports `empty` while the sender
lives and `disconnected` once it is gone. -/
def try_recv {α : Type} (queue : List α) (alive : Bool) :
    Except TryRecvError (α × List α) :=
  match queue with
  | x :: rest => .ok (x, rest)
  | [] => if alive then .error .empty else .error .disconnected

/-- Embeds `Worker::receive_result` (src/worker.rs lines 191-199) over the
channel model: a queued `(identity, output)` pair is returned together with
the remaining queue, an empty live channel yields `some none`
("nothing yet"), and a disconnected channel panics (`none`). -/
def receive_result {Id T : Type} (queue : List (Id × T)) (alive : Bool) :
    Option (Option ((Id × T) × List (Id × T))) :=
  match try_recv queue alive with
  | .ok r => some (some r)
  | .error .empty => some none
  | .error .disconnected => none

/-- Embeds `ParallelTasks` (src/worker.rs lines 50-54): children together with
one result-cache slot per child and the aggregation function. -/
structure ParallelTasks (T : Type) where
  tasks : List (ScriptTask T)
  cached_results : List (Option T)
  aggregator : T → T → T

/-- Embeds the `parallel` constructor (src/worker.rs lines 21-34): every
cache slot starts empty. -/
def parallel {T : Type} (tasks : List (ScriptTask T))
    (aggregator : T → T → T) : ParallelTasks T :=
  { tasks := tasks
    cached_results := tasks.map (fun _ => none)
    aggregator := aggregator }

/-- Embeds the child-visiting loop of `ParallelTasks::poll` (src/worker.rs
lines 63-74): walk the zip of children and cache slots threading the
`all_ready` flag, which the source sets to `false` whenever it meets an empty
cache slot, before polling that child. -/
def parallelLoop {T : Type} :
    List (ScriptTask T) → List (Option T) → Bool →
      List (ScriptTask T) × List (Option T) × Bool
  | task :: ts, cached :: cs, all_ready =>
    match cached with
    | none =>
      let polled := ScriptTask.poll task
      let cached' :=
        match polled.1 with
        | .ready v => some v
        | .pending => none
      let rest := parallelLoop ts cs false
      (polled.2 :: rest.1, cached' :: rest.2.1, rest.2.2)
    | some v =>
      let rest := parallelLoop ts cs all_ready
      (task :: rest.1, some v :: rest.2.1, rest.2.2)
  | ts, cs, all_ready => (ts, cs, all_ready)

/-- Embeds `iter.next().unwrap().unwrap()` followed by the aggregation loop of
`ParallelTasks::poll` (src/worker.rs lines 77-81), folding the remaining cache
slots onto the seed; `none` marks the panic of `result.unwrap()` on an empty
slot. -/
def foldAggregate {T : Type} (aggregator : T → T → T) :
    T → List (Option T) → Option T
  | acc, [] => some acc
  | _, none :: _ => none
  | acc, some v :: rest => foldAggregate aggregator (aggregator acc v) rest

/-- Embeds `ParallelTasks::poll` (src/worker.rs lines 62-86).  `none` marks a
panic: with `all_ready` still true the source drains the cache slots and
unwraps both the first drained element (panics on an empty child list) and its
content.  On `all_ready` the cache is drained, so it comes back empty. -/
def ParallelTasks.poll {T : Type} (p : ParallelTasks T) :
    Option (Poll T × ParallelTasks T) :=
  let walked := parallelLoop p.tasks p.cached_results true
  if walked.2.2 then
    match walked.2.1 with
    | [] => none
    | first :: rest =>
      match first with
      | none => none
      | some seed =>
        match foldAggregate p.aggregator seed rest with
        | none => none
        | some aggregated =>
          some (.ready aggregated,
            { tasks := walked.1, cached_results := [],
              aggregator := p.aggregator })
  else
    some (.pending,
      { tasks := walked.1, cached_results := walked.2.1,
        aggregator := p.aggregator })

/-- Embeds `SerialTasks` (src/worker.rs lines 99-103): children, the ordered
log of results produced so far, and the aggregation function. -/
structure SerialTasks (T : Type) where
  tasks : List (ScriptTask T)
  cached_results : List T
  aggregator : T → T → T

/-- Embeds the `serial` constructor (src/worker.rs lines 36-48): the result
log starts empty. -/
def serial {T : Type} (tasks : List (ScriptTask T))
    (aggregator : T → T → T) : SerialTasks T :=
  { tasks := tasks, cached_results := [], aggregator := aggregator }

/-- Embeds `SerialTasks::poll` (src/worker.rs lines 111-127): poll only the
child at index `cached_results.len()` (`none` marks the out-of-bounds panic of
`self.tasks[..]` on that index), append its ready result to the log, and once
the log is full drain and fold it.  On completion the drained log comes back
empty. -/
def SerialTasks.poll {T : Type} (s : SerialTasks T) :
    Option (Poll T × SerialTasks T) :=
  match s.tasks.get? s.cached_results.length with
  | none => none
  | some task =>
    let polled := ScriptTask.poll task
    let tasks' := s.tasks.set s.cached_results.length polled.2
    match polled.1 with
    | .pending => some (.pending, { s with tasks := tasks' })
    | .ready v =>
      let log := s.cached_results ++ [v]
      if log.length = s.tasks.length then
        match log with
        | [] => none
        | seed :: rest =>
          some (.ready (rest.foldl s.aggregator seed),
            { tasks := tasks', cached_results := [],
              aggregator := s.aggregator })
      else
        some (.pending,
          { tasks := tasks', cached_results := log,
            aggregator := s.aggregator })

/-- Embeds `TaskOperation` (src/worker.rs lines 136-139). -/
inductive TaskOperation (Id T : Type) where
  | add (id : Id) (task : ScriptTask T)
  | remove (id : Id)

/-- Embeds `Vec::swap_remove(i)`: the last element replaces position `i` and
the vector shrinks by one. -/
def swapRemove {α : Type} (l : List α) (i : Nat) : List α :=
  match l.getLast? with
  | some x => (l.set i x).dropLast
  | none => []

/-- State owned by the worker thread of `run_worker` (src/worker.rs lines
207-253) together with the channels around it: the still-unreceived operation
queue, the live task table `pending_tasks`, the queued contents of the result
channel, the shared live-count snapshot, and a ghost log of the tasks that a
`Remove` operation cancelled and dropped (recorded in their post-cancel
state). -/
structure WorkerState (Id T : Type) where
  opQueue : List (TaskOperation Id T)
  pending_tasks : List (Id × ScriptTask T)
  results : List (Id × T)
  task_count : Nat
  cancelledLog : List (Id × ScriptTask T)

/-- Embeds the body of the `Remove` arm of `run_worker` (src/worker.rs lines
227-232): scan indices `len-1 .. 0`; at a matching identity `swap_remove` the
entry and cancel the removed task (recorded in the ghost log).  The fuel
argument is the index about to be visited plus one. -/
def removeLoop {Id T : Type} [DecidableEq Id] (id : Id) :
    Nat → List (Id × ScriptTask T) → List (Id × ScriptTask T) →
      List (Id × ScriptTask T) × List (Id × ScriptTask T)
  | 0, l, log => (l, log)
  | i + 1, l, log =>
    match l.get? i with
    | none => removeLoop id i l log
    | some entry =>
      if entry.1 = id then
        removeLoop id i (swapRemove l i)
          (log ++ [(entry.1, ScriptTask.cancel entry.2)])
      else
        removeLoop id i l log

/-- Embeds the polling pass of `run_worker` (src/worker.rs lines 240-248):
scan indices `len-1 .. 0`; poll the entry at the visited index; if it is ready
`swap_remove` it and send `(identity, result)` on the result channel.  The
fuel argument is the index about to be visited plus one. -/
def pollLoop {Id T : Type} :
    Nat → List (Id × ScriptTask T) → List (Id × T) →
      List (Id × ScriptTask T) × List (Id × T)
  | 0, l, sent => (l, sent)
  | i + 1, l, sent =>
    match l.get? i with
    | none => pollLoop i l sent
    | some entry =>
      match ScriptTask.poll entry.2 with
      | (.ready v, _) => pollLoop i (swapRemove l i) (sent ++ [(entry.1, v)])
      | (.pending, t') => pollLoop i (l.set i (entry.1, t')) sent

/-- Embeds the operation-receiving section of one `run_worker` iteration
(src/worker.rs lines 224-238): a single `try_recv` on the operation channel,
so at most the oldest queued operation is applied; an `Add` pushes the task
onto the table, a `Remove` runs the removal scan and refreshes the count
snapshot. -/
def opPhase {Id T : Type} [DecidableEq Id] (s : WorkerState Id T) :
    WorkerState Id T :=
  match s.opQueue with
  | [] => s
  | op :: rest =>
    match op with
    | .add id task =>
      { s with opQueue := rest
               pending_tasks := s.pending_tasks ++ [(id, task)] }
    | .remove id =>
      let removed :=
        removeLoop id s.pending_tasks.length s.pending_tasks s.cancelledLog
      { s with opQueue := rest
               pending_tasks := removed.1
               cancelledLog := removed.2
               task_count := removed.1.length }

/-- Embeds the polling section of one `run_worker` iteration (src/worker.rs
lines 240-249): run the polling pass over the table, append what it sent to
the result channel, and refresh the count snapshot. -/
def pollPhase {Id T : Type} (s : WorkerState Id T) : WorkerState Id T :=
  let passed := pollLoop s.pending_tasks.length s.pending_tasks []
  { s with pending_tasks := passed.1
           results := s.results ++ passed.2
           task_count := passed.1.length }

/-- One full iteration of the `run_worker` loop body (src/worker.rs lines
223-252), sleep apart: the single-operation receive followed by the polling
pass. -/
def workerStep {Id T : Type} [DecidableEq Id] (s : WorkerState Id T) :
    WorkerState Id T :=
  pollPhase (opPhase s)

/-- Enqueue the operations of `Application::run_action` (src/application.rs
lines 249-257): `cancel_tasks_with_id` then `send_task`, i.e. a `Remove`
for the identity immediately followed by the `Add` of the new task. -/
def submitOp {Id T : Type} (id : Id) (task : ScriptTask T)
    (s : WorkerState Id T) : WorkerState Id T :=
  { s with opQueue := s.opQueue ++ [.remove id, .add id task] }

/-- Enqueue a lone cancellation (`Worker::cancel_all_tasks`, src/worker.rs
lines 185-189): a `Remove` for the identity. -/
def cancelOp {Id T : Type} (id : Id) (s : WorkerState Id T) :
    WorkerState Id T :=
  { s with opQueue := s.opQueue ++ [.remove id] }

/-- The worker's starting state (src/worker.rs lines 159-177 and 215): all
queues empty, no live task, count snapshot zero. -/
def initialWorkerState {Id T : Type} : WorkerState Id T :=
  { opQueue := [], pending_tasks := [], results := [], task_count := 0,
    cancelledLog := [] }

/-- States the system can be in: starting from the initial state, the
caller thread may enqueue submissions (`run_action` pattern) and lone
cancellations at any point, and the worker thread may run iterations of its
loop at any point. -/
inductive Reachable {Id T : Type} [DecidableEq Id] :
    WorkerState Id T → Prop where
  | init : Reachable initialWorkerState
  | submit {s : WorkerState Id T} (id : Id) (task : ScriptTask T) :
      Reachable s → Reachable (submitOp id task s)
  | cancel {s : WorkerState Id T} (id : Id) :
      Reachable s → Reachable (cancelOp id s)
  | step {s : WorkerState Id T} :
      Reachable s → Reachable (workerStep s)

/-- Identities currently occupying the live task table. -/
def tableIds {Id T : Type} (s : WorkerState Id T) : List Id :=
  s.pending_tasks.map Prod.fst

/-! Helper lemmas about `List.set`, `List.take`, `List.drop` and `swapRemove`,
used to characterise the reverse-index scans of `run_worker`. -/

theorem take_set_self {α : Type} :
    ∀ (l : List α) (i : Nat) (x : α), (l.set i x).take i = l.take i := by
  intro l
  induction l with
  | nil => intro i x; cases i <;> rfl
  | cons a l ih =>
    intro i x
    cases i with
    | zero => rfl
    | succ i =>
      show a :: (l.set i x).take i = a :: l.take i
      rw [ih]

theorem drop_set_self {α : Type} :
    ∀ (l : List α) (i : Nat) (x : α), i < l.length →
      (l.set i x).drop i = x :: l.drop (i + 1) := by
  intro l
  induction l with
  | nil => intro i x h; simp at h
  | cons a l ih =>
    intro i x h
    cases i with
    | zero => rfl
    | succ i =>
      show (l.set i x).drop i = x :: l.drop (i + 1)
      exact ih i x (by simpa using h)

theorem get?_drop_cons {α : Type} :
    ∀ (l : List α) (i : Nat) (e : α), l.get? i = some e →
      l.drop i = e :: l.drop (i + 1) := by
  intro l
  induction l with
  | nil => intro i e he; simp at he
  | cons a l ih =>
    intro i e he
    cases i with
    | zero => simp_all
    | succ i => exact ih i e (by simpa using he)

theorem swapRemove_eq {α : Type} (l : List α) (i : Nat) (x : α)
    (hx : l.getLast? = some x) : swapRemove l i = (l.set i x).dropLast := by
  simp [swapRemove, hx]

theorem swapRemove_length {α : Type} (l : List α) (i : Nat) (h : l ≠ []) :
    (swapRemove l i).length = l.length - 1 := by
  obtain ⟨x, hx⟩ : ∃ x, l.getLast? = some x :=
    ⟨_, List.getLast?_eq_getLast l h⟩
  rw [swapRemove_eq l i x hx]
  simp

theorem swapRemove_take {α : Type} (l : List α) (i : Nat) (x : α)
    (hx : l.getLast? = some x) (h : i < l.length) :
    (swapRemove l i).take i = l.take i := by
  rw [swapRemove_eq l i x hx, List.dropLast_eq_take, List.length_set,
    List.take_take]
  have hmin : i ⊓ (l.length - 1) = i := Nat.min_eq_left (by omega)
  rw [hmin, take_set_self]

theorem swapRemove_last {α : Type} (l : List α) (i : Nat) (x : α)
    (hx : l.getLast? = some x) (h : i + 1 = l.length) :
    swapRemove l i = l.dropLast := by
  rw [swapRemove_eq l i x hx, List.dropLast_eq_take, List.dropLast_eq_take,
    List.length_set]
  have hi : l.length - 1 = i := by omega
  rw [hi, take_set_self]

theorem swapRemove_drop {α : Type} (l : List α) (i : Nat) (x : α)
    (hx : l.getLast? = some x) (h : i + 1 < l.length) :
    (swapRemove l i).drop i = x :: (l.drop (i + 1)).dropLast := by
  rw [swapRemove_eq l i x hx, List.dropLast_eq_take, List.length_set,
    List.drop_take, drop_set_self l i x (by omega)]
  have h2 : l.length - 1 - i = (l.length - i - 2) + 1 := by omega
  rw [h2, List.take_succ_cons, List.dropLast_eq_take, List.length_drop]
  have h3 : l.length - i - 2 = l.length - (i + 1) - 1 := by omega
  rw [h3]

/-- What becomes of a table entry in the polling pass when its poll answers
`pending`: it stays (in its post-poll state). -/
def pollKeep {Id T : Type} (e : Id × ScriptTask T) :
    Option (Id × ScriptTask T) :=
  match ScriptTask.poll e.2 with
  | (.pending, t') => some (e.1, t')
  | (.ready _, _) => none

/-- What a table entry contributes to the result channel in the polling pass
when its poll answers `ready`. -/
def pollSend {Id T : Type} (e : Id × ScriptTask T) : Option (Id × T) :=
  match ScriptTask.poll e.2 with
  | (.ready v, _) => some (e.1, v)
  | (.pending, _) => none

/-- Characterisation of the polling pass: up to the order scrambling of
`swap_remove`, each of the first `i` entries is polled exactly once, the
pending ones survive in their post-poll state, and the ready ones are sent on
the result channel in decreasing index order. -/
theorem pollLoop_spec {Id T : Type} :
    ∀ (i : Nat) (l : List (Id × ScriptTask T)) (sent : List (Id × T)),
      i ≤ l.length →
      List.Perm (pollLoop i l sent).1
          ((l.take i).filterMap pollKeep ++ l.drop i)
        ∧ (pollLoop i l sent).2
          = sent ++ ((l.take i).filterMap pollSend).reverse := by
  intro i
  induction i with
  | zero => intro l sent h; simp [pollLoop]
  | succ i ih =>
    intro l sent h
    obtain ⟨e, he⟩ : ∃ e, l.get? i = some e :=
      ⟨_, List.get?_eq_get (by omega)⟩
    have htake : l.take (i + 1) = l.take i ++ [e] := by
      rw [List.take_succ, ← List.get?_eq_getElem?, he]
      rfl
    have hne : l ≠ [] := by
      intro hl
      rw [hl] at h
      simp at h
    obtain ⟨x, hx⟩ : ∃ x, l.getLast? = some x :=
      ⟨_, List.getLast?_eq_getLast l hne⟩
    have he' : l[i]? = some e := by
      rw [← List.get?_eq_getElem?]
      exact he
    cases hpp : ScriptTask.poll e.2 with
    | mk r t' =>
      cases r with
      | pending =>
        have hstep : pollLoop (i + 1) l sent
            = pollLoop i (l.set i (e.1, t')) sent := by
          simp [pollLoop, he', hpp]
        have hk : pollKeep e = some (e.1, t') := by
          simp [pollKeep, hpp]
        have hs : pollSend e = none := by
          simp [pollSend, hpp]
        obtain ⟨IH1, IH2⟩ :=
          ih (l.set i (e.1, t')) sent (by rw [List.length_set]; omega)
        rw [take_set_self, drop_set_self l i _ (by omega)] at IH1
        rw [take_set_self] at IH2
        constructor
        · rw [hstep, htake, List.filterMap_append]
          simpa [hk] using IH1
        · rw [hstep, htake, List.filterMap_append]
          simpa [hs] using IH2
      | ready v =>
        have hstep : pollLoop (i + 1) l sent
            = pollLoop i (swapRemove l i) (sent ++ [(e.1, v)]) := by
          simp [pollLoop, he', hpp]
        have hk : pollKeep e = none := by
          simp [pollKeep, hpp]
        have hs : pollSend e = some (e.1, v) := by
          simp [pollSend, hpp]
        have hswlen : (swapRemove l i).length = l.length - 1 :=
          swapRemove_length l i hne
        obtain ⟨IH1, IH2⟩ :=
          ih (swapRemove l i) (sent ++ [(e.1, v)]) (by omega)
        rw [swapRemove_take l i x hx (by omega)] at IH1 IH2
        rcases Nat.lt_or_ge (i + 1) l.length with hlt | hge
        · -- the scan continues below a list that lost its last element
          rw [swapRemove_drop l i x hx hlt] at IH1
          have hD : l.drop (i + 1) ≠ [] := by
            intro h0
            have := congrArg List.length h0
            simp at this
            omega
          have hDx : (l.drop (i + 1)).getLast? = some x := by
            rw [List.getLast?_eq_getElem?, List.getElem?_drop,
              ← List.getLast?_eq_getElem?] at *
            rw [show i + 1 + ((l.drop (i + 1)).length - 1) = l.length - 1 by
              simp [List.length_drop]; omega]
            rw [List.getLast?_eq_getElem?] at hx
            exact hx
          have hDlast : (l.drop (i + 1)).getLast hD = x := by
            have := List.getLast?_eq_getLast (l.drop (i + 1)) hD
            rw [hDx] at this
            exact (Option.some.injEq _ _).mp this.symm
          have hperm :
              List.Perm (x :: (l.drop (i + 1)).dropLast) (l.drop (i + 1)) := by
            have hsplit := List.dropLast_append_getLast hD
            rw [hDlast] at hsplit
            conv_rhs => rw [← hsplit]
            exact (List.perm_append_singleton x _).symm
          constructor
          · rw [hstep, htake, List.filterMap_append]
            refine IH1.trans ?_
            simp only [hk, List.filterMap_cons, List.filterMap_nil,
              List.append_nil]
            exact hperm.append_left _
          · rw [hstep, htake, List.filterMap_append]
            simp [hs] at IH2 ⊢
            rw [IH2]
        · -- the scan removed the last remaining entry
          have hEq : i + 1 = l.length := by omega
          have hsw : swapRemove l i = l.take i := by
            rw [swapRemove_last l i x hx hEq, List.dropLast_eq_take]
            congr 1
            omega
          rw [hsw] at IH1 IH2
          have htd : (l.take i).drop i = [] := by
            rw [List.drop_take]
            simp
          rw [htd, List.append_nil] at IH1
          have hdrop : l.drop (i + 1) = [] := by
            rw [hEq, List.drop_length]
          constructor
          · rw [hstep, hsw, htake, List.filterMap_append, hdrop]
            simpa [hk] using IH1
          · rw [hstep, hsw, htake, List.filterMap_append]
            simp [hs] at IH2 ⊢
            rw [IH2]

/-- What becomes of a table entry in the `Remove(id)` scan: an entry under a
different identity survives unchanged. -/
def removeKeep {Id T : Type} [DecidableEq Id] (id : Id)
    (e : Id × ScriptTask T) : Option (Id × ScriptTask T) :=
  if e.1 = id then none else some e

/-- What a table entry contributes to the ghost cancellation log in the
`Remove(id)` scan: an entry under the identity is cancelled and dropped. -/
def removeLogEntry {Id T : Type} [DecidableEq Id] (id : Id)
    (e : Id × ScriptTask T) : Option (Id × ScriptTask T) :=
  if e.1 = id then some (e.1, ScriptTask.cancel e.2) else none

/-- Characterisation of the `Remove(id)` scan: up to the order scrambling of
`swap_remove`, the entries under other identities survive untouched and every
entry under `id` is cancelled and appended to the ghost log in decreasing
index order. -/
theorem removeLoop_spec {Id T : Type} [DecidableEq Id] (id : Id) :
    ∀ (i : Nat) (l : List (Id × ScriptTask T))
      (log : List (Id × ScriptTask T)),
      i ≤ l.length →
      List.Perm (removeLoop id i l log).1
          ((l.take i).filterMap (removeKeep id) ++ l.drop i)
        ∧ (removeLoop id i l log).2
          = log ++ ((l.take i).filterMap (removeLogEntry id)).reverse := by
  intro i
  induction i with
  | zero => intro l log h; simp [removeLoop]
  | succ i ih =>
    intro l log h
    obtain ⟨e, he⟩ : ∃ e, l.get? i = some e :=
      ⟨_, List.get?_eq_get (by omega)⟩
    have htake : l.take (i + 1) = l.take i ++ [e] := by
      rw [List.take_succ, ← List.get?_eq_getElem?, he]
      rfl
    have hne : l ≠ [] := by
      intro hl
      rw [hl] at h
      simp at h
    obtain ⟨x, hx⟩ : ∃ x, l.getLast? = some x :=
      ⟨_, List.getLast?_eq_getLast l hne⟩
    have he' : l[i]? = some e := by
      rw [← List.get?_eq_getElem?]
      exact he
    by_cases hid : e.1 = id
    · -- the visited entry matches and is cancelled, dropped and logged
      have hstep : removeLoop id (i + 1) l log
          = removeLoop id i (swapRemove l i)
              (log ++ [(e.1, ScriptTask.cancel e.2)]) := by
        simp [removeLoop, he', hid]
      have hk : removeKeep id e = none := by
        simp [removeKeep, hid]
      have hs : removeLogEntry id e = some (e.1, ScriptTask.cancel e.2) := by
        simp [removeLogEntry, hid]
      have hswlen : (swapRemove l i).length = l.length - 1 :=
        swapRemove_length l i hne
      obtain ⟨IH1, IH2⟩ :=
        ih (swapRemove l i) (log ++ [(e.1, ScriptTask.cancel e.2)])
          (by omega)
      rw [swapRemove_take l i x hx (by omega)] at IH1 IH2
      rcases Nat.lt_or_ge (i + 1) l.length with hlt | hge
      · rw [swapRemove_drop l i x hx hlt] at IH1
        have hD : l.drop (i + 1) ≠ [] := by
          intro h0
          have := congrArg List.length h0
          simp at this
          omega
        have hDx : (l.drop (i + 1)).getLast? = some x := by
          rw [List.getLast?_eq_getElem?, List.getElem?_drop,
            ← List.getLast?_eq_getElem?] at *
          rw [show i + 1 + ((l.drop (i + 1)).length - 1) = l.length - 1 by
            simp [List.length_drop]; omega]
          rw [List.getLast?_eq_getElem?] at hx
          exact hx
        have hDlast : (l.drop (i + 1)).getLast hD = x := by
          have := List.getLast?_eq_getLast (l.drop (i + 1)) hD
          rw [hDx] at this
          exact (Option.some.injEq _ _).mp this.symm
        have hperm :
            List.Perm (x :: (l.drop (i + 1)).dropLast) (l.drop (i + 1)) := by
          have hsplit := List.dropLast_append_getLast hD
          rw [hDlast] at hsplit
          conv_rhs => rw [← hsplit]
          exact (List.perm_append_singleton x _).symm
        constructor
        · rw [hstep, htake, List.filterMap_append]
          refine IH1.trans ?_
          simp only [hk, List.filterMap_cons, List.filterMap_nil,
            List.append_nil]
          exact hperm.append_left _
        · rw [hstep, htake, List.filterMap_append]
          simp [hs] at IH2 ⊢
          rw [IH2]
      · have hEq : i + 1 = l.length := by omega
        have hsw : swapRemove l i = l.take i := by
          rw [swapRemove_last l i x hx hEq, List.dropLast_eq_take]
          congr 1
          omega
        rw [hsw] at IH1 IH2
        have htd : (l.take i).drop i = [] := by
          rw [List.drop_take]
          simp
        rw [htd, List.append_nil] at IH1
        have hdrop : l.drop (i + 1) = [] := by
          rw [hEq, List.drop_length]
        constructor
        · rw [hstep, hsw, htake, List.filterMap_append, hdrop]
          simpa [hk] using IH1
        · rw [hstep, hsw, htake, List.filterMap_append]
          simp [hs] at IH2 ⊢
          rw [IH2]
    · -- the visited entry survives untouched
      have hstep : removeLoop id (i + 1) l log = removeLoop id i l log := by
        simp [removeLoop, he', hid]
      have hk : removeKeep id e = some e := by
        simp [removeKeep, hid]
      have hs : removeLogEntry id e = none := by
        simp [removeLogEntry, hid]
      obtain ⟨IH1, IH2⟩ := ih l log (by omega)
      have hdrop : l.drop i = e :: l.drop (i + 1) := get?_drop_cons l i e he
      constructor
      · rw [hstep, htake, List.filterMap_append]
        rw [hdrop] at IH1
        simpa [hk] using IH1
      · rw [hstep, htake, List.filterMap_append]
        simpa [hs] using IH2

/-- The polling section of an iteration, extensionally: every table entry is
polled exactly once, the pending ones survive (in scrambled order), the ready
ones are appended to the result channel, the count snapshot is refreshed and
nothing else changes. -/
theorem pollPhase_spec {Id T : Type} (s : WorkerState Id T) :
    List.Perm (pollPhase s).pending_tasks (s.pending_tasks.filterMap pollKeep)
      ∧ (pollPhase s).results
        = s.results ++ (s.pending_tasks.filterMap pollSend).reverse
      ∧ (pollPhase s).opQueue = s.opQueue
      ∧ (pollPhase s).cancelledLog = s.cancelledLog
      ∧ (pollPhase s).task_count = (pollPhase s).pending_tasks.length := by
  obtain ⟨h1, h2⟩ :=
    pollLoop_spec s.pending_tasks.length s.pending_tasks []
      (Nat.le_refl _)
  rw [List.take_length, List.drop_length, List.append_nil] at h1
  rw [List.take_length] at h2
  refine ⟨h1, ?_, rfl, rfl, rfl⟩
  show s.results ++ (pollLoop s.pending_tasks.length s.pending_tasks []).2
      = _
  rw [h2]
  rfl

/-- The operation section of an iteration on a queue headed by `Remove(id)`:
the head is consumed, surviving entries are exactly those under other
identities, the removed ones are cancelled and logged, and the result channel
is untouched. -/
theorem opPhase_remove_spec {Id T : Type} [DecidableEq Id]
    (s : WorkerState Id T) (id : Id) (rest : List (TaskOperation Id T))
    (h : s.opQueue = .remove id :: rest) :
    (opPhase s).opQueue = rest
      ∧ List.Perm (opPhase s).pending_tasks
        (s.pending_tasks.filterMap (removeKeep id))
      ∧ (opPhase s).cancelledLog
        = s.cancelledLog
          ++ (s.pending_tasks.filterMap (removeLogEntry id)).reverse
      ∧ (opPhase s).results = s.results := by
  obtain ⟨h1, h2⟩ :=
    removeLoop_spec id s.pending_tasks.length s.pending_tasks s.cancelledLog
      (Nat.le_refl _)
  rw [List.take_length, List.drop_length, List.append_nil] at h1
  rw [List.take_length] at h2
  refine ⟨by simp [opPhase, h], ?_, ?_, by simp [opPhase, h]⟩
  · simpa [opPhase, h] using h1
  · simpa [opPhase, h] using h2

/-- A `filterMap` whose function preserves the first component maps onto a
sublist of the identities. -/
theorem filterMap_fst_sublist {Id A B : Type} (f : Id × A → Option (Id × B))
    (hf : ∀ e x, f e = some x → x.1 = e.1) :
    ∀ l : List (Id × A),
      List.Sublist ((l.filterMap f).map Prod.fst) (l.map Prod.fst) := by
  intro l
  induction l with
  | nil => simp
  | cons e l ih =>
    cases hfe : f e with
    | none =>
      rw [List.filterMap_cons, hfe, List.map_cons]
      exact ih.cons e.1
    | some x =>
      rw [List.filterMap_cons, hfe, List.map_cons, List.map_cons, hf e x hfe]
      exact ih.cons₂ e.1

/-- A subpermutation of a duplicate-free list is duplicate-free. -/
theorem subperm_nodup {α : Type} {l₁ l₂ : List α}
    (h : List.Subperm l₁ l₂) (h₂ : l₂.Nodup) : l₁.Nodup := by
  obtain ⟨l, hp, hs⟩ := h
  exact hp.nodup_iff.mp (h₂.sublist hs)

/-- `pollKeep` preserves the identity of a surviving entry. -/
theorem pollKeep_fst {Id T : Type} (e : Id × ScriptTask T)
    (x : Id × ScriptTask T) (hx : pollKeep e = some x) : x.1 = e.1 := by
  unfold pollKeep at hx
  cases hpp : ScriptTask.poll e.2 with
  | mk r t' =>
    rw [hpp] at hx
    cases r with
    | ready v => simp at hx
    | pending =>
      simp at hx
      rw [← hx]

/-- `removeKeep` preserves the identity of a surviving entry, which is never
the removed identity. -/
theorem removeKeep_fst {Id T : Type} [DecidableEq Id] (id : Id)
    (e : Id × ScriptTask T) (x : Id × ScriptTask T)
    (hx : removeKeep id e = some x) : x.1 = e.1 ∧ x.1 ≠ id := by
  unfold removeKeep at hx
  by_cases hid : e.1 = id
  · simp [hid] at hx
  · simp [hid] at hx
    rw [← hx]
    exact ⟨rfl, hid⟩

/-- The identities in the table after a polling pass form a subpermutation of
the identities before it. -/
theorem pollPhase_ids_subperm {Id T : Type} (s : WorkerState Id T) :
    List.Subperm (tableIds (pollPhase s)) (tableIds s) := by
  have h1 := (pollPhase_spec s).1
  have h2 := filterMap_fst_sublist pollKeep pollKeep_fst s.pending_tasks
  exact (h1.map Prod.fst).subperm.trans h2.subperm

/-- The removed identity never occupies the table a `Remove(id)` scan leaves
behind. -/
theorem removeKeep_not_mem {Id T : Type} [DecidableEq Id] (id : Id)
    (l : List (Id × ScriptTask T)) :
    id ∉ (l.filterMap (removeKeep id)).map Prod.fst := by
  intro hmem
  obtain ⟨e, he, hfst⟩ := List.mem_map.mp hmem
  obtain ⟨a, _, ha⟩ := List.mem_filterMap.mp he
  exact (removeKeep_fst id a e ha).2 hfst

/-- Blocks of operations that the two caller entry points enqueue: a
submission enqueues `Remove` then `Add` for one identity (`run_action`),
a lone cancellation enqueues a single `Remove`. -/
inductive OpBlock (Id T : Type) where
  | pair (id : Id) (task : ScriptTask T)
  | single (id : Id)

/-- Operations of one enqueued block. -/
def blockOps {Id T : Type} : OpBlock Id T → List (TaskOperation Id T)
  | .pair id task => [.remove id, .add id task]
  | .single id => [.remove id]

/-- An operation queue entirely made of caller blocks. -/
def IsBlocks {Id T : Type} (q : List (TaskOperation Id T)) : Prop :=
  ∃ bs : List (OpBlock Id T), q = bs.flatMap blockOps

/-- Queue shape invariant: either the queue consists of whole blocks, or the
worker has consumed the `Remove` half of a submission block, in which case
the pending `Add` heads the queue and its identity no longer occupies the
table. -/
def QueueInv {Id T : Type} (q : List (TaskOperation Id T)) (ids : List Id) :
    Prop :=
  IsBlocks q
    ∨ ∃ id task q', q = .add id task :: q' ∧ IsBlocks q' ∧ id ∉ ids

/-- Worker invariant: the table never holds two tasks under one identity, and
the operation queue keeps the block shape. -/
def WorkerInv {Id T : Type} (s : WorkerState Id T) : Prop :=
  (tableIds s).Nodup ∧ QueueInv s.opQueue (tableIds s)

theorem isBlocks_nil {Id T : Type} : IsBlocks ([] : List (TaskOperation Id T)) :=
  ⟨[], rfl⟩

theorem isBlocks_append {Id T : Type} (q : List (TaskOperation Id T))
    (b : OpBlock Id T) (hq : IsBlocks q) : IsBlocks (q ++ blockOps b) := by
  obtain ⟨bs, rfl⟩ := hq
  exact ⟨bs ++ [b], by simp⟩

theorem isBlocks_not_add {Id T : Type} (id : Id) (task : ScriptTask T)
    (q : List (TaskOperation Id T)) : ¬ IsBlocks (.add id task :: q) := by
  rintro ⟨bs, hbs⟩
  cases bs with
  | nil => simp at hbs
  | cons b bs =>
    cases b with
    | pair id' task' => simp [blockOps] at hbs
    | single id' => simp [blockOps] at hbs

theorem isBlocks_remove_cases {Id T : Type} (id : Id)
    (q : List (TaskOperation Id T)) (h : IsBlocks (.remove id :: q)) :
    (∃ task q', q = .add id task :: q' ∧ IsBlocks q') ∨ IsBlocks q := by
  obtain ⟨bs, hbs⟩ := h
  cases bs with
  | nil => simp at hbs
  | cons b bs =>
    cases b with
    | pair id' task' =>
      simp [blockOps] at hbs
      obtain ⟨h1, h2⟩ := hbs
      subst h1
      exact Or.inl ⟨task', bs.flatMap blockOps, h2, ⟨bs, rfl⟩⟩
    | single id' =>
      simp [blockOps] at hbs
      exact Or.inr ⟨bs, hbs.2⟩

theorem workerInv_init {Id T : Type} :
    WorkerInv (initialWorkerState : WorkerState Id T) :=
  ⟨List.nodup_nil, Or.inl isBlocks_nil⟩

theorem workerInv_submit {Id T : Type} (s : WorkerState Id T) (id : Id)
    (task : ScriptTask T) (h : WorkerInv s) :
    WorkerInv (submitOp id task s) := by
  obtain ⟨hnd, hq⟩ := h
  refine ⟨hnd, ?_⟩
  rcases hq with hb | ⟨id0, t0, q', heq, hb, hmem⟩
  · exact Or.inl (isBlocks_append _ (OpBlock.pair id task) hb)
  · right
    refine ⟨id0, t0, q' ++ blockOps (OpBlock.pair id task), ?_,
      isBlocks_append _ _ hb, hmem⟩
    show s.opQueue ++ blockOps (OpBlock.pair id task) = _
    rw [heq]
    rfl

theorem workerInv_cancel {Id T : Type} (s : WorkerState Id T) (id : Id)
    (h : WorkerInv s) : WorkerInv (cancelOp id s) := by
  obtain ⟨hnd, hq⟩ := h
  refine ⟨hnd, ?_⟩
  rcases hq with hb | ⟨id0, t0, q', heq, hb, hmem⟩
  · exact Or.inl (isBlocks_append _ (OpBlock.single id) hb)
  · right
    refine ⟨id0, t0, q' ++ blockOps (OpBlock.single id), ?_,
      isBlocks_append _ _ hb, hmem⟩
    show s.opQueue ++ blockOps (OpBlock.single id) = _
    rw [heq]
    rfl

theorem opPhase_results {Id T : Type} [DecidableEq Id]
    (s : WorkerState Id T) : (opPhase s).results = s.results := by
  unfold opPhase
  cases s.opQueue with
  | nil => rfl
  | cons op rest => cases op <;> rfl

theorem workerInv_step {Id T : Type} [DecidableEq Id] (s : WorkerState Id T)
    (h : WorkerInv s) : WorkerInv (workerStep s) := by
  obtain ⟨hnd, hq⟩ := h
  cases hqe : s.opQueue with
  | nil =>
    have hop : opPhase s = s := by simp [opPhase, hqe]
    unfold workerStep
    rw [hop]
    refine ⟨subperm_nodup (pollPhase_ids_subperm s) hnd, ?_⟩
    rw [(pollPhase_spec s).2.2.1, hqe]
    exact Or.inl isBlocks_nil
  | cons op rest =>
    cases op with
    | add id task =>
      rcases hq with hb | ⟨id0, t0, q', heq, hb, hmem⟩
      · rw [hqe] at hb
        exact absurd hb (isBlocks_not_add id task rest)
      · have hco : (TaskOperation.add id task :: rest
            : List (TaskOperation Id T)) = .add id0 t0 :: q' := by
          rw [← hqe, heq]
        injection hco with hhead htail
        injection hhead with hid htask
        subst hid
        subst htask
        subst htail
        have hop : opPhase s
            = { s with opQueue := rest
                       pending_tasks := s.pending_tasks ++ [(id, task)] } := by
          simp [opPhase, hqe]
        have hids1 : tableIds (opPhase s) = tableIds s ++ [id] := by
          rw [hop]
          simp [tableIds]
        have hnd1 : (tableIds (opPhase s)).Nodup := by
          rw [hids1, List.nodup_append]
          refine ⟨hnd, List.nodup_singleton id, ?_⟩
          intro a ha hb1
          rw [List.mem_singleton.mp hb1] at ha
          exact hmem ha
        unfold workerStep
        refine ⟨subperm_nodup (pollPhase_ids_subperm (opPhase s)) hnd1, ?_⟩
        rw [(pollPhase_spec (opPhase s)).2.2.1, hop]
        exact Or.inl hb
    | remove id =>
      rcases hq with hb | ⟨id0, t0, q', heq, hb, hmem⟩
      · have hb' : IsBlocks (TaskOperation.remove id :: rest) := by
          rw [← hqe]
          exact hb
        obtain ⟨hq1, hperm, hlog, hres⟩ := opPhase_remove_spec s id rest hqe
        have hnd1 : (tableIds (opPhase s)).Nodup :=
          subperm_nodup
            ((hperm.map Prod.fst).subperm.trans
              (filterMap_fst_sublist (removeKeep id)
                (fun e x hx => (removeKeep_fst id e x hx).1)
                s.pending_tasks).subperm)
            hnd
        have hid1 : id ∉ tableIds (opPhase s) := by
          intro hm
          exact removeKeep_not_mem id s.pending_tasks
            ((hperm.map Prod.fst).mem_iff.mp hm)
        have hid2 : id ∉ tableIds (workerStep s) := by
          intro hm
          exact hid1 ((pollPhase_ids_subperm (opPhase s)).subset hm)
        unfold workerStep
        refine ⟨subperm_nodup (pollPhase_ids_subperm (opPhase s)) hnd1, ?_⟩
        rw [(pollPhase_spec (opPhase s)).2.2.1, hq1]
        rcases isBlocks_remove_cases id rest hb' with ⟨task, rest', hrest, hbr⟩ | hbr
        · right
          exact ⟨id, task, rest', hrest, hbr, hid2⟩
        · left
          exact hbr
      · rw [hqe] at heq
        injection heq with hhead htail
        simp at hhead

/-- Every state the system can reach satisfies the worker invariant. -/
theorem reachable_workerInv {Id T : Type} [DecidableEq Id]
    (s : WorkerState Id T) (h : Reachable s) : WorkerInv s := by
  induction h with
  | init => exact workerInv_init
  | submit id task hr ih => exact workerInv_submit _ id task ih
  | cancel id hr ih => exact workerInv_cancel _ id ih
  | step hr ih => exact workerInv_step _ ih

/-- Polling a scripted child always bumps its poll counter by one. -/
theorem scriptTask_poll_polls {T : Type} (t : ScriptTask T) :
    (ScriptTask.poll t).2.polls = t.polls + 1 := by
  cases t with
  | mk p r pl c => cases p <;> rfl

/-- Setting an index leaves every other position of a list unchanged. -/
theorem get?_set_of_ne {α : Type} (l : List α) (i j : Nat) (x : α)
    (h : i ≠ j) : (l.set i x).get? j = l.get? j := by
  simp [List.get?_eq_getElem?, List.getElem?_set_ne, h]

/-- What one visit of the `ParallelTasks::poll` loop does to a child: a child
with a cached result is left alone, a child without one is polled once. -/
def parallelVisitTask {T : Type} (task : ScriptTask T) (cached : Option T) :
    ScriptTask T :=
  match cached with
  | some _ => task
  | none => (ScriptTask.poll task).2

/-- What one visit of the `ParallelTasks::poll` loop does to a cache slot: a
filled slot stays, an empty one caches the child's answer when it is ready. -/
def parallelVisitCache {T : Type} (task : ScriptTask T) (cached : Option T) :
    Option T :=
  match cached with
  | some v => some v
  | none =>
    match (ScriptTask.poll task).1 with
    | .ready v => some v
    | .pending => none

/-- The visiting loop of `ParallelTasks::poll`, extensionally: children and
slots are updated pointwise, and the `all_ready` flag survives exactly when
every slot was already filled when the loop started. -/
theorem parallelLoop_eq {T : Type} :
    ∀ (ts : List (ScriptTask T)) (cs : List (Option T)) (a : Bool),
      ts.length = cs.length →
      parallelLoop ts cs a
        = (List.zipWith parallelVisitTask ts cs,
           List.zipWith parallelVisitCache ts cs,
           a && cs.all Option.isSome) := by
  intro ts
  induction ts with
  | nil =>
    intro cs a h
    cases cs with
    | nil => simp [parallelLoop]
    | cons c cs => simp at h
  | cons t ts ih =>
    intro cs a h
    cases cs with
    | nil => simp at h
    | cons c cs =>
      cases c with
      | none =>
        have hrec := ih cs false (by simpa using h)
        simp [parallelLoop, hrec, parallelVisitTask, parallelVisitCache]
      | some v =>
        have hrec := ih cs a (by simpa using h)
        simp [parallelLoop, hrec, parallelVisitTask, parallelVisitCache]

/-- When every slot is already filled, the visiting loop does not touch any
child. -/
theorem zipWith_visitTask_some {T : Type} :
    ∀ (ts : List (ScriptTask T)) (vs : List T), ts.length = vs.length →
      List.zipWith parallelVisitTask ts (vs.map some) = ts := by
  intro ts
  induction ts with
  | nil => intro vs h; simp
  | cons t ts ih =>
    intro vs h
    cases vs with
    | nil => simp at h
    | cons v vs =>
      simp [parallelVisitTask, ih vs (by simpa using h)]

/-- When every slot is already filled, the visiting loop keeps every slot. -/
theorem zipWith_visitCache_some {T : Type} :
    ∀ (ts : List (ScriptTask T)) (vs : List T), ts.length = vs.length →
      List.zipWith parallelVisitCache ts (vs.map some) = vs.map some := by
  intro ts
  induction ts with
  | nil =>
    intro vs h
    cases vs with
    | nil => simp
    | cons v vs => simp at h
  | cons t ts ih =>
    intro vs h
    cases vs with
    | nil => simp at h
    | cons v vs =>
      simp [parallelVisitCache, ih vs (by simpa using h)]

/-- Folding the aggregation over fully drained slots succeeds and is the left
fold of the cached values. -/
theorem foldAggregate_map_some {T : Type} (aggregator : T → T → T) :
    ∀ (vs : List T) (acc : T),
      foldAggregate aggregator acc (vs.map some)
        = some (vs.foldl aggregator acc) := by
  intro vs
  induction vs with
  | nil => intro acc; rfl
  | cons v vs ih => intro acc; simp [foldAggregate, ih]

/-- States a serial composite can pass through while its owner keeps polling
it: poll steps that answer `pending` (once it answers `ready` the owner drops
it and never polls again). -/
inductive SerialReach {T : Type} : SerialTasks T → SerialTasks T → Prop where
  | refl (s : SerialTasks T) : SerialReach s s
  | step {s s' s'' : SerialTasks T} : SerialReach s s' →
      SerialTasks.poll s' = some (.pending, s'') → SerialReach s s''
/-- One poll of a serial composite whose current index is in range: only the
child at the completed-count index is touched (polled once); a ready answer is
appended to the result log before the index advances; a final ready answer
makes the composite itself report ready. -/
theorem serial_poll_step {T : Type} (s : SerialTasks T) (task : ScriptTask T)
    (h : s.tasks.get? s.cached_results.length = some task)
    (r : Poll T × SerialTasks T) (hr : SerialTasks.poll s = some r) :
    r.2.tasks = s.tasks.set s.cached_results.length (ScriptTask.poll task).2
      ∧ (∀ j, j ≠ s.cached_results.length →
          r.2.tasks.get? j = s.tasks.get? j)
      ∧ ((ScriptTask.poll task).1 = .pending →
          r.2.cached_results = s.cached_results ∧ r.1 = .pending)
      ∧ (∀ v, (ScriptTask.poll task).1 = .ready v →
          s.cached_results.length + 1 ≠ s.tasks.length →
          r.2.cached_results = s.cached_results ++ [v] ∧ r.1 = .pending)
      ∧ (∀ v, (ScriptTask.poll task).1 = .ready v →
          s.cached_results.length + 1 = s.tasks.length →
          ∃ w, r.1 = .ready w) := by
  cases s with
  | mk ts0 cs0 agg0 =>
    simp only at h
    cases hp : ScriptTask.poll task with
    | mk pr t' =>
      cases pr with
      | pending =>
        have hr2 : SerialTasks.poll (SerialTasks.mk ts0 cs0 agg0)
            = some (.pending,
                SerialTasks.mk (ts0.set cs0.length t') cs0 agg0) := by
          simp only [SerialTasks.poll, h, hp]
        have hre : r = (.pending,
            SerialTasks.mk (ts0.set cs0.length t') cs0 agg0) :=
          (Option.some.injEq _ _).mp (hr.symm.trans hr2)
        subst hre
        refine ⟨rfl, ?_, fun _ => ⟨rfl, rfl⟩, ?_, ?_⟩
        · intro j hj
          exact get?_set_of_ne _ _ _ _ (fun he => hj he.symm)
        · intro v hv
          simp at hv
        · intro v hv
          simp at hv
      | ready v =>
        by_cases hfin : (cs0 ++ [v]).length = ts0.length
        · -- the ready answer fills the log: aggregate and report ready
          have hlen1 : cs0.length + 1 = ts0.length := by simpa using hfin
          cases cs0 with
          | nil =>
            have hr2 : SerialTasks.poll (SerialTasks.mk ts0 [] agg0)
                = some (.ready (List.foldl agg0 v []),
                    SerialTasks.mk (ts0.set (List.length ([] : List T)) t')
                      [] agg0) := by
              simp only [SerialTasks.poll, h, hp]
              rw [if_pos hfin]
              rfl
            have hre : r = (.ready (List.foldl agg0 v []),
                SerialTasks.mk (ts0.set (List.length ([] : List T)) t')
                  [] agg0) :=
              (Option.some.injEq _ _).mp (hr.symm.trans hr2)
            subst hre
            refine ⟨rfl, ?_, ?_, ?_, ?_⟩
            · intro j hj
              exact get?_set_of_ne _ _ _ _ (fun he => hj he.symm)
            · intro hpend
              simp at hpend
            · intro w hw hne
              exact absurd hlen1 hne
            · intro w hw hfin2
              exact ⟨List.foldl agg0 v [], rfl⟩
          | cons c0 crest =>
            have hr2 : SerialTasks.poll (SerialTasks.mk ts0 (c0 :: crest) agg0)
                = some (.ready (List.foldl agg0 c0 (crest ++ [v])),
                    SerialTasks.mk (ts0.set (c0 :: crest).length t')
                      [] agg0) := by
              simp only [SerialTasks.poll, h, hp]
              rw [if_pos hfin]
              rfl
            have hre : r = (.ready (List.foldl agg0 c0 (crest ++ [v])),
                SerialTasks.mk (ts0.set (c0 :: crest).length t') [] agg0) :=
              (Option.some.injEq _ _).mp (hr.symm.trans hr2)
            subst hre
            refine ⟨rfl, ?_, ?_, ?_, ?_⟩
            · intro j hj
              exact get?_set_of_ne _ _ _ _ (fun he => hj he.symm)
            · intro hpend
              simp at hpend
            · intro w hw hne
              exact absurd hlen1 hne
            · intro w hw hfin2
              exact ⟨List.foldl agg0 c0 (crest ++ [v]), rfl⟩
        · -- the log is still short: the ready answer is appended
          have hr2 : SerialTasks.poll (SerialTasks.mk ts0 cs0 agg0)
              = some (.pending,
                  SerialTasks.mk (ts0.set cs0.length t')
                    (cs0 ++ [v]) agg0) := by
            simp only [SerialTasks.poll, h, hp]
            rw [if_neg hfin]
          have hre : r = (.pending,
              SerialTasks.mk (ts0.set cs0.length t') (cs0 ++ [v]) agg0) :=
            (Option.some.injEq _ _).mp (hr.symm.trans hr2)
          subst hre
          refine ⟨rfl, ?_, ?_, ?_, ?_⟩
          · intro j hj
            exact get?_set_of_ne _ _ _ _ (fun he => hj he.symm)
          · intro hpend
            simp at hpend
          · intro w hw hne
            simp at hw
            subst hw
            exact ⟨rfl, rfl⟩
          · intro w hw hfin2
            simp at hw
            subst hw
            exact absurd (by simpa using hfin2) hfin

/-- Children beyond the completed-count index have never been polled, in any
state a fresh serial composite can reach. -/
theorem serialReach_no_poll_beyond {T : Type}
    (ts : List (ScriptTask T)) (aggregator : T → T → T)
    (s' : SerialTasks T)
    (hreach : SerialReach (serial ts aggregator) s')
    (h0 : ∀ t ∈ ts, t.polls = 0) :
    ∀ j t, s'.cached_results.length < j → s'.tasks.get? j = some t →
      t.polls = 0 := by
  induction hreach with
  | refl =>
    intro j t hj hget
    exact h0 t (List.get?_mem hget)
  | step hr hp ih =>
    rename_i sMid sNext
    intro j t hj hget
    cases hsome : sMid.tasks.get? sMid.cached_results.length with
    | none =>
      rw [SerialTasks.poll, hsome] at hp
      simp at hp
    | some task =>
      obtain ⟨h1, h2, h3, h4, h5⟩ :=
        serial_poll_step sMid task hsome (Poll.pending, sNext) hp
      cases hpoll : (ScriptTask.poll task).1 with
      | pending =>
        obtain ⟨hc, _⟩ := h3 hpoll
        have hjm : sMid.cached_results.length < j := by
          rw [← hc]
          exact hj
        refine ih j t hjm ?_
        rw [← h2 j (by omega)]
        exact hget
      | ready v =>
        by_cases hfin :
            sMid.cached_results.length + 1 = sMid.tasks.length
        · obtain ⟨w, hw⟩ := h5 v hpoll hfin
          simp at hw
        · obtain ⟨hc, _⟩ := h4 v hpoll hfin
          have hjm : sMid.cached_results.length < j := by
            have hx := hj
            rw [hc] at hx
            simp at hx
            omega
          refine ih j t hjm ?_
          rw [← h2 j (by omega)]
          exact hget
/-! Concrete command environments used by claim theorems, witnesses and
counterexamples. -/

/-- A command whose spawn succeeds and whose process exits successfully with
stdout text `"out"`. -/
def cmdOk : CommandModel :=
  { spawn := Except.ok
      { wait_with_output := Except.ok
          { success := true, stdout_utf8 := some "out",
            stderr_utf8 := some "" }
        try_wait := Except.ok true
        wait_success := Except.ok true
        stdout_pipe := some (Except.ok "out")
        stderr_pipe := some (Except.ok "") } }

/-- A command whose spawn succeeds and whose process exits successfully but
whose captured stdout bytes are not valid UTF-8. -/
def cmdBadUtf8 : CommandModel :=
  { spawn := Except.ok
      { wait_with_output := Except.ok
          { success := true, stdout_utf8 := none, stderr_utf8 := some "" }
        try_wait := Except.ok true
        wait_success := Except.ok true
        stdout_pipe := none
        stderr_pipe := none } }

/-- A worker state with two add operations already queued, used to exhibit
that one loop iteration applies only one of them. -/
def twoAddsQueued : WorkerState Nat Nat :=
  { opQueue := [TaskOperation.add 1 (ScriptTask.mk 5 10 0 false),
                TaskOperation.add 2 (ScriptTask.mk 5 20 0 false)]
    pending_tasks := [], results := [], task_count := 0, cancelledLog := [] }

/-- A worker state whose queue holds one add operation. -/
def oneAddQueued : WorkerState Nat Nat :=
  { opQueue := [TaskOperation.add 1 (ScriptTask.mk 5 10 0 false)]
    pending_tasks := [], results := [], task_count := 0, cancelledLog := [] }

/-- A worker state whose queue holds one remove operation while two tasks are
live. -/
def oneRemoveQueued : WorkerState Nat Nat :=
  { opQueue := [TaskOperation.remove 1]
    pending_tasks := [(1, ScriptTask.mk 5 10 0 false),
                      (2, ScriptTask.mk 5 20 0 false)]
    results := [], task_count := 2, cancelledLog := [] }

/-! The claims. -/

/-- C1 (amended): in every reachable dispatcher state at most one live task
occupies any identity — a submission enqueues the cancel of its identity
immediately before its add, operations apply in arrival order, and when the
add is applied no task holds that identity any more.  (The unamended claim
additionally demanded that no superseded task ever delivers a result; that
part fails on the code, see the counterexample.) -/
theorem c1_at_most_one_live_task_per_identity {Id T : Type} [DecidableEq Id]
    (s : WorkerState Id T) (h : Reachable s) (id : Id) :
    (tableIds s).count id ≤ 1 :=
  List.nodup_iff_count_le_one.mp (reachable_workerInv s h).1 id

/-- Witness for the per-identity bound on a concretely reached state. -/
theorem c1_at_most_one_live_task_per_identity_witness :
    (tableIds (workerStep (submitOp 1 (ScriptTask.mk 5 10 0 false)
        (initialWorkerState : WorkerState Nat Nat)))).count 1 ≤ 1 :=
  c1_at_most_one_live_task_per_identity _
    (Reachable.step (Reachable.submit 1 (ScriptTask.mk 5 10 0 false)
      Reachable.init)) 1

/-- C1 (counterexample): two submissions under identity 1 are enqueued before
the worker thread runs an iteration; the first submission's task answers
ready on its very first poll.  Because each iteration applies only one queued
operation before polling, the first task is added and polled before the
second submission's cancel is processed, so the superseded task's result
`(1, 10)` is delivered (and even ahead of `(1, 20)`). -/
theorem c1_stale_result_counterexample :
    (workerStep (workerStep (workerStep (workerStep
        (submitOp 1 (ScriptTask.mk 0 20 0 false)
          (submitOp (1 : Nat) (ScriptTask.mk 0 10 0 false)
            (initialWorkerState : WorkerState Nat Nat))))))).results
      = [(1, 10), (1, 20)] := by decide

/-- C2 (code bug): evaluated at a command whose spawn succeeds, the very
first poll of a `Waiting` task already returns `Ready`: the source blocks in
`wait_with_output` inside the first poll and returns out of both arms of the
match on its result, so it never closes stdin, never transitions to
`Running`, and never returns `Pending` — the transition code at
src/application.rs lines 146-152 is unreachable dead code (which even uses
`child` after it was moved into `wait_with_output`). -/
theorem c2_first_poll_blocks_and_returns_ready :
    ActionTask.poll (.waiting cmdOk)
      = some (.ready (.ok "out"), .waiting cmdOk) := rfl

/-- C3 (amended): one iteration of the worker loop applies at most the single
oldest queued operation — not all pending ones — before the polling pass: the
queue head is consumed (an add appends its task to the table; a remove
cancels, drops and logs exactly the entries under its identity), then every
live task is polled exactly once, ready ones are removed with their
(identity, output) pair pushed onto the result channel, and the live-count
snapshot is updated to the table size. -/
theorem c3_single_operation_then_poll_pass {Id T : Type} [DecidableEq Id]
    (s : WorkerState Id T) :
    (workerStep s).opQueue = s.opQueue.drop 1
      ∧ (s.opQueue = [] → opPhase s = s)
      ∧ (∀ id task rest, s.opQueue = TaskOperation.add id task :: rest →
          (opPhase s).pending_tasks = s.pending_tasks ++ [(id, task)])
      ∧ (∀ id rest, s.opQueue = TaskOperation.remove id :: rest →
          List.Perm (opPhase s).pending_tasks
              (s.pending_tasks.filterMap (removeKeep id))
            ∧ (opPhase s).cancelledLog
              = s.cancelledLog
                ++ (s.pending_tasks.filterMap (removeLogEntry id)).reverse)
      ∧ List.Perm (workerStep s).pending_tasks
          ((opPhase s).pending_tasks.filterMap pollKeep)
      ∧ (workerStep s).results
        = s.results ++ ((opPhase s).pending_tasks.filterMap pollSend).reverse
      ∧ (workerStep s).task_count = (workerStep s).pending_tasks.length := by
  refine ⟨?_, ?_, ?_, ?_, ?_, ?_, ?_⟩
  · show (pollPhase (opPhase s)).opQueue = _
    rw [(pollPhase_spec (opPhase s)).2.2.1]
    cases hqe : s.opQueue with
    | nil => simp [opPhase, hqe]
    | cons op rest => cases op <;> simp [opPhase, hqe]
  · intro h
    simp [opPhase, h]
  · intro id task rest h
    simp [opPhase, h]
  · intro id rest h
    obtain ⟨_, hperm, hlog, _⟩ := opPhase_remove_spec s id rest h
    exact ⟨hperm, hlog⟩
  · exact (pollPhase_spec (opPhase s)).1
  · show (pollPhase (opPhase s)).results = _
    rw [(pollPhase_spec (opPhase s)).2.1, opPhase_results]
  · exact (pollPhase_spec (opPhase s)).2.2.2.2

/-- Witness for the iteration characterisation at concrete states with an
empty queue, a queued add and a queued remove. -/
theorem c3_single_operation_then_poll_pass_witness :
    opPhase (initialWorkerState : WorkerState Nat Nat) = initialWorkerState
      ∧ (opPhase oneAddQueued).pending_tasks
        = [(1, ScriptTask.mk 5 10 0 false)]
      ∧ List.Perm (opPhase oneRemoveQueued).pending_tasks
          [(2, ScriptTask.mk 5 20 0 false)] :=
  ⟨(c3_single_operation_then_poll_pass initialWorkerState).2.1 rfl,
   (c3_single_operation_then_poll_pass oneAddQueued).2.2.1 1
     (ScriptTask.mk 5 10 0 false) [] rfl,
   ((c3_single_operation_then_poll_pass oneRemoveQueued).2.2.2.1 1 []
     rfl).1⟩

/-- C3 (counterexample): with two add operations queued, one iteration
applies only the first: afterwards the second operation still sits in the
queue and only the first task entered the table (where it was already polled
once), where the claim's "all pending operations are drained" reading
demands an empty queue and both tasks live. -/
theorem c3_drain_all_counterexample :
    (workerStep twoAddsQueued).opQueue.length = 1
      ∧ tableIds (workerStep twoAddsQueued) = [1]
      ∧ (workerStep twoAddsQueued).pending_tasks
        = [(1, ScriptTask.mk 4 10 1 false)] := by decide

/-- C4 (amended): on each poll of a parallel composite every child without a
cached result is polled exactly once and a child with a cached result is
never polled; the poll returns `Ready` exactly when every slot was already
cached when the call began — so the poll during which the last child becomes
ready still returns `Pending` and only the next poll returns `Ready` — and
the `Ready` output is the left fold of the cached results with the
aggregator in original child order seeded by child 0's result, hence
independent of the order in which children became ready. -/
theorem c4_parallel_cached_fold {T : Type} (p : ParallelTasks T)
    (hlen : p.tasks.length = p.cached_results.length) :
    (∀ v vs, p.cached_results = (v :: vs).map some →
        ParallelTasks.poll p
          = some (.ready (vs.foldl p.aggregator v),
              ParallelTasks.mk p.tasks [] p.aggregator))
      ∧ (none ∈ p.cached_results →
          ParallelTasks.poll p
            = some (.pending,
                ParallelTasks.mk
                  (List.zipWith parallelVisitTask p.tasks p.cached_results)
                  (List.zipWith parallelVisitCache p.tasks p.cached_results)
                  p.aggregator))
      ∧ (∀ (t : ScriptTask T) (v : T), parallelVisitTask t (some v) = t)
      ∧ (∀ t : ScriptTask T, (parallelVisitTask t none).polls = t.polls + 1) := by
  refine ⟨?_, ?_, fun t v => rfl, fun t => scriptTask_poll_polls t⟩
  · intro v vs hcs
    have hl2 : p.tasks.length = (v :: vs).length := by
      rw [hlen, hcs]
      simp
    simp only [ParallelTasks.poll]
    rw [parallelLoop_eq p.tasks p.cached_results true hlen, hcs,
      zipWith_visitTask_some p.tasks (v :: vs) hl2,
      zipWith_visitCache_some p.tasks (v :: vs) hl2]
    have hall : (((v :: vs).map some).all Option.isSome) = true := by
      simp
    simp [hall, foldAggregate_map_some]
  · intro hmem
    simp only [ParallelTasks.poll]
    rw [parallelLoop_eq p.tasks p.cached_results true hlen]
    have hall : p.cached_results.all Option.isSome = false := by
      cases hall0 : p.cached_results.all Option.isSome with
      | true => exact absurd (List.all_eq_true.mp hall0 none hmem) (by simp)
      | false => rfl
    simp [hall]

/-- Witness for the parallel poll characterisation: a fully cached composite
aggregates and reports ready without touching its child; a composite with an
uncached child polls it once and reports pending. -/
theorem c4_parallel_cached_fold_witness :
    ParallelTasks.poll
        (ParallelTasks.mk [ScriptTask.mk 0 5 0 false] [some 5] Nat.add)
      = some (.ready 5, ParallelTasks.mk [ScriptTask.mk 0 5 0 false] [] Nat.add)
      ∧ ParallelTasks.poll
          (ParallelTasks.mk [ScriptTask.mk 1 5 0 false] [none] Nat.add)
        = some (.pending,
            ParallelTasks.mk [ScriptTask.mk 0 5 1 false] [none] Nat.add) :=
  ⟨(c4_parallel_cached_fold
      (ParallelTasks.mk [ScriptTask.mk 0 5 0 false] [some 5] Nat.add)
      rfl).1 5 [] rfl,
   (c4_parallel_cached_fold
      (ParallelTasks.mk [ScriptTask.mk 1 5 0 false] [none] Nat.add)
      rfl).2.1 (by simp)⟩

/-- C4 (counterexample): a single child that answers ready on its very first
poll: after the composite's first poll the child's result is cached and the
child was polled once, yet that poll returned `Pending` — the source clears
`all_ready` before polling each uncached child, so `Ready` only comes on the
following poll.  This refutes "a poll returns Ready exactly when every child
has produced a Ready result". -/
theorem c4_ready_reported_one_poll_late :
    (ParallelTasks.poll (parallel [ScriptTask.mk 0 42 0 false] Nat.add)).map
        (fun r => (r.1, r.2.cached_results, r.2.tasks.map ScriptTask.polls))
      = some (Poll.pending, [some 42], [1]) := rfl

/-- C5 (code bug): polling a `Waiting` task whose process produces
non-UTF-8 stdout panics — the source unwraps `String::from_utf8` on the
captured bytes — instead of returning the failure as a `Ready(Err(..))`
value. -/
theorem c5_poll_panics_on_invalid_utf8 :
    ActionTask.poll (.waiting cmdBadUtf8) = none := rfl

/-- C6: the aggregator appends a newline and then the second text to the
first text, and the combined outcome is a success exactly when both inputs
are successes — either failure makes the combination a failure. -/
theorem c6_aggregator_newline_failure_dominates (a b : ActionResult) :
    resultText (action_aggregator a b)
        = (resultText a).push '\n' ++ resultText b
      ∧ resultIsOk (action_aggregator a b)
        = (resultIsOk a && resultIsOk b) := by
  cases a <;> cases b <;> exact ⟨rfl, rfl⟩

/-- C7: a serial composite polls only the child at the completed-count index
— that child's poll counter increments, every other child is untouched, a
pending answer leaves the log alone and a non-final ready answer is appended
to the log (which advances the index) — and consequently, over any sequence
of polls from a fresh composite, a child beyond the completed-count index has
never been polled: child `i+1` is not polled before child `i` delivered. -/
theorem c7_serial_polls_only_current_child {T : Type} :
    (∀ (s : SerialTasks T) (task : ScriptTask T),
        s.tasks.get? s.cached_results.length = some task →
        ∀ r, SerialTasks.poll s = some r →
          r.2.tasks = s.tasks.set s.cached_results.length
              (ScriptTask.poll task).2
            ∧ (ScriptTask.poll task).2.polls = task.polls + 1
            ∧ (∀ j, j ≠ s.cached_results.length →
                r.2.tasks.get? j = s.tasks.get? j)
            ∧ ((ScriptTask.poll task).1 = .pending →
                r.2.cached_results = s.cached_results)
            ∧ (∀ v, (ScriptTask.poll task).1 = .ready v →
                s.cached_results.length + 1 ≠ s.tasks.length →
                r.2.cached_results = s.cached_results ++ [v]))
      ∧ (∀ (ts : List (ScriptTask T)) (aggregator : T → T → T)
          (s' : SerialTasks T),
          SerialReach (serial ts aggregator) s' →
          (∀ t ∈ ts, t.polls = 0) →
          ∀ j t, s'.cached_results.length < j → s'.tasks.get? j = some t →
            t.polls = 0) := by
  constructor
  · intro s task h r hr
    obtain ⟨h1, h2, h3, h4, h5⟩ := serial_poll_step s task h r hr
    exact ⟨h1, scriptTask_poll_polls task, h2,
      fun hp => (h3 hp).1, fun v hv hne => (h4 v hv hne).1⟩
  · intro ts aggregator s' hreach h0
    exact serialReach_no_poll_beyond ts aggregator s' hreach h0

/-- Witness for the serial polling discipline on a concrete two-child
composite after one pending poll step. -/
theorem c7_serial_polls_only_current_child_witness :
    (SerialTasks.mk [ScriptTask.mk 0 5 1 false, ScriptTask.mk 0 7 0 false]
          ([] : List Nat) Nat.add).tasks
        = [ScriptTask.mk 1 5 0 false, ScriptTask.mk 0 7 0 false].set 0
            (ScriptTask.poll (ScriptTask.mk 1 5 0 false)).2
      ∧ (ScriptTask.mk 0 7 0 false).polls = 0 :=
  ⟨(c7_serial_polls_only_current_child.1
      (serial [ScriptTask.mk 1 5 0 false, ScriptTask.mk 0 7 0 false] Nat.add)
      (ScriptTask.mk 1 5 0 false) rfl
      (Poll.pending,
        SerialTasks.mk [ScriptTask.mk 0 5 1 false, ScriptTask.mk 0 7 0 false]
          [] Nat.add) rfl).1,
   c7_serial_polls_only_current_child.2
     [ScriptTask.mk 1 5 0 false, ScriptTask.mk 0 7 0 false] Nat.add
     (SerialTasks.mk [ScriptTask.mk 0 5 1 false, ScriptTask.mk 0 7 0 false]
       [] Nat.add)
     (SerialReach.step (SerialReach.refl _) rfl)
     (by decide) 1 (ScriptTask.mk 0 7 0 false) (by decide) rfl⟩

/-- C8: the result drain never blocks — it is a total function of the channel
state: a queued (identity, output) pair is returned at once, an empty queue
on a live channel reports "nothing yet" whatever the task table holds, and a
disconnected channel aborts loudly (panic) rather than being swallowed. -/
theorem c8_receive_result_nonblocking {Id T : Type} (s : WorkerState Id T)
    (alive : Bool) :
    (∀ r rest, s.results = r :: rest →
        receive_result s.results alive = some (some (r, rest)))
      ∧ (s.results = [] → alive = true →
          receive_result s.results alive = some none)
      ∧ (s.results = [] → alive = false →
          receive_result s.results alive = none) := by
  refine ⟨?_, ?_, ?_⟩
  · intro r rest hq
    rw [hq]
    rfl
  · intro hq halive
    rw [hq, halive]
    rfl
  · intro hq halive
    rw [hq, halive]
    rfl

/-- Witness for the drain behaviour: a live empty channel next to a non-empty
task table reports "nothing yet", a queued pair is handed out, and a
disconnected empty channel panics. -/
theorem c8_receive_result_nonblocking_witness :
    receive_result ((WorkerState.mk [] [(1, ScriptTask.mk 5 10 0 false)] []
        1 [] : WorkerState Nat Nat).results) true = some none
      ∧ receive_result ((WorkerState.mk [] [] [((2 : Nat), (7 : Nat))] 0
          [] : WorkerState Nat Nat).results) true
        = some (some (((2 : Nat), (7 : Nat)), []))
      ∧ receive_result ((initialWorkerState : WorkerState Nat Nat).results)
          false = none :=
  ⟨(c8_receive_result_nonblocking
      (WorkerState.mk [] [(1, ScriptTask.mk 5 10 0 false)] [] 1 []) true).2.1
      rfl rfl,
   (c8_receive_result_nonblocking
      (WorkerState.mk [] [] [((2 : Nat), (7 : Nat))] 0 []) true).1
      (2, 7) [] rfl,
   (c8_receive_result_nonblocking (initialWorkerState : WorkerState Nat Nat)
      false).2.2 rfl rfl⟩

/-- C9 (counterexample): cancelling a `Waiting` task is a no-op — the task
still holds its runnable command — and a later poll does spawn the process
when the spawn succeeds, so cancel-before-poll is not a guaranteed no-spawn
outcome. -/
theorem c9_cancel_then_poll_spawns :
    ActionTask.cancel (.waiting cmdOk) = .waiting cmdOk
      ∧ ActionTask.pollSpawns (ActionTask.cancel (.waiting cmdOk)) = true :=
  ⟨rfl, rfl⟩

/-- C9 (amended): `cancel()` on a `Waiting` task leaves the task unchanged,
so a later poll attempts the spawn exactly as if cancel had never been
called, and spawns whenever the spawn succeeds; no-spawn after cancel is
guaranteed only by the dispatcher dropping a cancelled task and never polling
it again, not by the task itself. -/
theorem c9_cancel_waiting_is_noop (command : CommandModel) :
    ActionTask.cancel (.waiting command) = .waiting command
      ∧ (∀ child, command.spawn = .ok child →
          ActionTask.pollSpawns (ActionTask.cancel (.waiting command))
            = true) := by
  refine ⟨rfl, ?_⟩
  intro child hc
  simp [ActionTask.cancel, ActionTask.pollSpawns, hc]

/-- Witness for the no-op cancel on a concrete waiting command. -/
theorem c9_cancel_waiting_is_noop_witness :
    ActionTask.cancel (.waiting cmdBadUtf8) = .waiting cmdBadUtf8
      ∧ ActionTask.pollSpawns (ActionTask.cancel (.waiting cmdBadUtf8))
        = true :=
  ⟨(c9_cancel_waiting_is_noop cmdBadUtf8).1,
   (c9_cancel_waiting_is_noop cmdBadUtf8).2 _ rfl⟩

/-- C10: polling a composite built from an empty child list panics on the
first poll: the parallel composite unwraps the missing first drained cache
slot (`iter.next().unwrap()`), the serial composite indexes position 0 of its
empty child vector; a non-empty child list is an unstated precondition of the
constructors. -/
theorem c10_empty_composites_panic (T : Type) (aggregator : T → T → T) :
    ParallelTasks.poll (parallel [] aggregator) = none
      ∧ SerialTasks.poll (serial [] aggregator) = none :=
  ⟨rfl, rfl⟩

end Verco
